import Mathlib

/-!
Shallow embedding of the two host-bootstrap scripts
(`installer.py` — YubiKey/PAM hardening, and `ansible_setup.py` — Ansible
bootstrap) of the `wsl-usb-buddy-debian-fido-setup` repository.

Python strings are modelled as `List Char` (`PyStr`).  Whitespace and
line-terminator sets are the ASCII ones (`' '`, `'\t'`, `'\n'`, `'\r'`,
`'\x0b'`, `'\x0c'`), which cover the configuration-file texts this program
manipulates.  Filesystem contents are modelled as `Option PyStr`
(`none` = file absent).  External commands are modelled by their observable
outcome (`Except`), and console output as `List PyStr` message lists.
-/

/-- Python `str` modelled as a list of characters. -/
abbrev PyStr := List Char

/-- Convert a Lean string literal to the `PyStr` model. -/
def pystr (s : String) : PyStr := s.data

/-- ASCII whitespace, as stripped by Python `str.strip`/`str.rstrip`. -/
def isWs (c : Char) : Bool :=
  c = ' ' || c = '\t' || c = '\n' || c = '\r' || c = '\x0b' || c = '\x0c'

/-- ASCII line terminators recognised by Python `str.splitlines`. -/
def isBreakChar (c : Char) : Bool :=
  c = '\n' || c = '\r' || c = '\x0b' || c = '\x0c'

/-- A string containing no line terminator (a single "line"). -/
def breakFree (l : PyStr) : Bool := l.all (fun c => !isBreakChar c)

/-- Python `str.rstrip()` (ASCII whitespace). -/
def rstrip (s : PyStr) : PyStr := (s.reverse.dropWhile isWs).reverse

/-- Python `str.lstrip()` (ASCII whitespace). -/
def lstrip (s : PyStr) : PyStr := s.dropWhile isWs

/-- Python `str.strip()` (ASCII whitespace). -/
def strip (s : PyStr) : PyStr := lstrip (rstrip s)

/-- Python `str.startswith`. -/
def isPrefixB : PyStr → PyStr → Bool
  | [], _ => true
  | _ :: _, [] => false
  | a :: as, b :: bs => a = b && isPrefixB as bs

/-- Python `needle in haystack` (substring containment). -/
def hasSub (n : PyStr) : PyStr → Bool
  | [] => n.isEmpty
  | c :: t => isPrefixB n (c :: t) || hasSub n t

/-- Worker for `splitlines`: accumulates the current line reversed. -/
def splitlinesAux : List Char → List Char → List PyStr
  | [], acc => if acc.isEmpty then [] else [acc.reverse]
  | '\r' :: '\n' :: t, acc => acc.reverse :: splitlinesAux t []
  | c :: t, acc =>
    if isBreakChar c then acc.reverse :: splitlinesAux t []
    else splitlinesAux t (c :: acc)

/-- Python `str.splitlines()` over the ASCII terminators: a final
terminator yields no trailing empty line, and `"\r\n"` is one break. -/
def splitlines (s : PyStr) : List PyStr := splitlinesAux s []

/-- Python `"\n".join(lines)`. -/
def joinLines : List PyStr → PyStr
  | [] => []
  | [x] => x
  | x :: y :: t => x ++ '\n' :: joinLines (y :: t)

/-- A line whose characters are all whitespace (including the empty line). -/
def wsOnly (l : PyStr) : Bool := l.all isWs

/-- Drop the maximal run of whitespace-only lines at the end of a line list. -/
def dropTrailingWsLines (ls : List PyStr) : List PyStr :=
  (ls.reverse.dropWhile wsOnly).reverse

/-- Apply `f` to the last element of a list, if any. -/
def modifyLast (f : α → α) : List α → List α
  | [] => []
  | [x] => [f x]
  | x :: y :: t => x :: modifyLast f (y :: t)

/-- Line-level effect of `rstrip` applied to a `"\n"`-joined line list:
whitespace-only trailing lines disappear, and the last surviving line is
itself right-stripped. -/
def rtrimLines (ls : List PyStr) : List PyStr :=
  modifyLast rstrip (dropTrailingWsLines ls)

/-- Python `list.insert(idx, x)` (appends when `idx` exceeds the length). -/
def listInsertAt : Nat → α → List α → List α
  | 0, x, ls => x :: ls
  | _ + 1, x, [] => [x]
  | n + 1, x, h :: t => h :: listInsertAt n x t

/-! ## `installer.py`: the PAM authentication-stanza mutator
(`ensure_pam_sudo_line`, source lines 221–265). -/

/-- `pam_line = f"auth required pam_u2f.so authfile={authfile_path} cue"`. -/
def pamLine (authfile_path : PyStr) : PyStr :=
  pystr "auth required pam_u2f.so authfile=" ++ authfile_path ++ pystr " cue"

/-- The removal test of the mutator's loop:
`"pam_u2f.so" in line and line.strip().startswith("auth")`. -/
def lineMatches (line : PyStr) : Bool :=
  hasSub (pystr "pam_u2f.so") line && isPrefixB (pystr "auth") (strip line)

/-- The `new_lines` list after the removal loop: every matching line dropped. -/
def keptLines (content : PyStr) : List PyStr :=
  (splitlines content).filter (fun l => !lineMatches l)

/-- The `removed` counter of the removal loop. -/
def removedCount (content : PyStr) : Nat :=
  (splitlines content).countP (fun l => lineMatches l)

/-- `line.startswith("#")`. -/
def startsHash (l : PyStr) : Bool := isPrefixB (pystr "#") l

/-- The `insert_idx` computed by the `while` loop: length of the contiguous
leading block of comment lines among the kept lines. -/
def pamInsertIdx (content : PyStr) : Nat :=
  ((keptLines content).takeWhile startsHash).length

/-- The `new_lines` list after `new_lines.insert(insert_idx, pam_line)`. -/
def newLines (p content : PyStr) : List PyStr :=
  listInsertAt (pamInsertIdx content) (pamLine p) (keptLines content)

/-- `updated_text = "\n".join(new_lines).rstrip() + "\n"`. -/
def updatedText (p content : PyStr) : PyStr :=
  rstrip (joinLines (newLines p content)) ++ ['\n']

/-! ## `installer.py`: backup guard (`backup_file`, lines 208–218). -/

/-- `backup_file`: `origContent` is the current bytes of `path` (the caller
has checked the file exists); `backup` is the current content of the
`.bak` path (`none` = absent).  Returns the new backup content and the
printed messages. -/
def backup_file (origContent : PyStr) (backup : Option PyStr) (dry_run : Bool) :
    Option PyStr × List PyStr :=
  match backup with
  | some b => (some b, [pystr "OK: Backup already exists"])
  | none =>
    if dry_run then (none, [pystr "Creating backup:", pystr "DRY RUN: not creating backup."])
    else (some origContent, [pystr "Creating backup:"])

/-- Repeated invocation of the guard (real mode) against the same path while
the original file's bytes take the successive values in `origs`. -/
def iterateBackup (backup : Option PyStr) (origs : List PyStr) : Option PyStr :=
  origs.foldl (fun b o => (backup_file o b false).1) backup

/-! ## `installer.py`: udev rule writer (`write_udev_rule`, lines 99–123). -/

/-- `UDEV_RULE_CONTENT`. -/
def udevRuleContent : PyStr :=
  pystr "KERNEL==\"hidraw*\", SUBSYSTEM==\"hidraw\", ATTRS{idVendor}==\"1050\", MODE=\"0666\"\n"

/-- `write_udev_rule`: `existing` is the rule file's content (`none` =
absent).  Returns the file's new content and the printed messages.
The best-effort `udevadm` reload is an external call, not modelled. -/
def write_udev_rule (existing : Option PyStr) (dry_run : Bool) :
    Option PyStr × List PyStr :=
  let hdr := pystr "[Setup Step] Ensuring udev rule exists for Yubico hidraw access..."
  match existing with
  | some e =>
    if strip e = strip udevRuleContent then
      (some e, [hdr, pystr "OK: udev rule already present"])
    else
      let m := [hdr, pystr "NOTICE: exists but differs; will replace with standard content.",
                pystr "Writing udev rule"]
      if dry_run then (some e, m ++ [pystr "DRY RUN: not writing udev rule."])
      else (some udevRuleContent, m)
  | none =>
    let m := [hdr, pystr "Writing udev rule"]
    if dry_run then (none, m ++ [pystr "DRY RUN: not writing udev rule."])
    else (some udevRuleContent, m)

/-! ## `installer.py`: full PAM step state (`ensure_pam_sudo_line`). -/

/-- The two files `ensure_pam_sudo_line` touches: `/etc/pam.d/sudo` and its
`.bak` backup (`none` = absent). -/
structure PamState where
  pamFile : Option PyStr
  backupFile : Option PyStr
deriving DecidableEq, Repr

/-- `ensure_pam_sudo_line`: exits with code 3 when the PAM file is absent;
otherwise backs it up, computes the updated text and (unless dry-run)
writes it. -/
def ensure_pam_sudo_line (authfile_path : PyStr) (st : PamState) (dry_run : Bool) :
    Except Nat PamState × List PyStr :=
  let hdr := pystr "[PAM Step] Updating /etc/pam.d/sudo to require YubiKey touch for sudo..."
  match st.pamFile with
  | none => (.error 3, [hdr, pystr "ERROR: /etc/pam.d/sudo not found."])
  | some content =>
    let b := backup_file content st.backupFile dry_run
    let st1 : PamState := ⟨some content, b.1⟩
    if dry_run then
      (.ok st1, hdr :: b.2 ++
        [pystr "DRY RUN: would write the following first ~12 lines of /etc/pam.d/sudo:",
         joinLines ((splitlines (updatedText authfile_path content)).take 12)])
    else
      (.ok ⟨some (updatedText authfile_path content), b.1⟩,
       hdr :: b.2 ++ [pystr "OK: pam_u2f line added to /etc/pam.d/sudo"])

/-! ## `installer.py`: enrollment step (`enroll_u2f`, lines 144–205). -/

/-- Filesystem facts `enroll_u2f` manipulates: the `u2f_keys` mapping file,
the `u2f_keys.tmp` scratch file, and whether the config directories have
been created/chowned. -/
structure EnrollState where
  u2fKeys : Option PyStr
  tmpFile : Option PyStr
  dirsPrepared : Bool
deriving DecidableEq, Repr

/-- `enroll_u2f`: `cmd` is the observable outcome of the external
`pamu2fcfg` invocation (`.ok content` = it wrote `content` to the temp
file and exited 0).  On failure the partial temp file is removed and the
error is re-raised (`.error`). -/
def enroll_u2f (st : EnrollState) (re_enroll dry_run : Bool)
    (cmd : Except Unit PyStr) : EnrollState × Except Unit Unit × List PyStr :=
  if st.u2fKeys.isSome && !re_enroll then
    (st, .ok (), [pystr "OK: u2f_keys already exists (use --re-enroll to overwrite)."])
  else if dry_run then
    (st, .ok (), [pystr "Will write mapping file:", pystr "DRY RUN: skipping pamu2fcfg enrollment."])
  else
    match cmd with
    | .error _ =>
      (⟨st.u2fKeys, none, true⟩, .error (),
       [pystr "Will write mapping file:", pystr "Running: sudo -u ... pamu2fcfg",
        pystr "ERROR: pamu2fcfg failed."])
    | .ok content =>
      (⟨some content, none, true⟩, .ok (),
       [pystr "Will write mapping file:", pystr "Running: sudo -u ... pamu2fcfg"])

/-! ## `installer.py`: package installation (`apt_install`, lines 88–96). -/

/-- `apt_install`: returns the external command lines it invokes (empty under
dry-run) and the printed messages. -/
def apt_install (packages : List PyStr) (dry_run : Bool) :
    List (List PyStr) × List PyStr :=
  let m := [pystr "[Package Step] Installing required packages (Debian)...",
            pystr "Packages:"]
  if dry_run then ([], m ++ [pystr "DRY RUN: skipping apt operations."])
  else ([[pystr "apt-get", pystr "update"],
         [pystr "apt-get", pystr "install", pystr "-y"] ++ packages], m)

/-! ## Identity resolution (`installer.py` `get_target_user`,
`ansible_setup.py` `discover_home_users` / `resolve_target_user` / `main`). -/

/-- One `pwd` database entry. -/
structure Pwd where
  name : PyStr
  uid : Nat
  dir : PyStr
deriving DecidableEq, Repr

/-- Python truthiness of an optional string: `None` and `""` are falsy. -/
def pyTruthy (o : Option PyStr) : Option PyStr :=
  match o with
  | some s => if s.isEmpty then none else some s
  | none => none

/-- `pwd.getpwnam`, as a lookup in the modelled account database. -/
def getpwnam (db : List Pwd) (n : PyStr) : Option Pwd :=
  db.find? (fun e => e.name = n)

/-- `pwd.getpwuid`. -/
def getpwuid (db : List Pwd) (u : Nat) : Option Pwd :=
  db.find? (fun e => e.uid = u)

/-- `installer.py` `get_target_user`: prefer a truthy explicit `--user`,
else a truthy `SUDO_USER`, else the current account; then `getpwnam`
(`sys.exit(1)` when unknown).  An unresolvable current uid (uncaught
`KeyError`) is modelled as error code 9. -/
def installer_get_target_user (explicit sudo_user : Option PyStr) (uid : Nat)
    (db : List Pwd) : Except Nat (PyStr × PyStr) :=
  let u : Option PyStr :=
    match pyTruthy explicit with
    | some e => some e
    | none =>
      match pyTruthy sudo_user with
      | some s => some s
      | none => (getpwuid db uid).map (fun pw => pw.name)
  match u with
  | none => .error 9
  | some u0 =>
    match getpwnam db u0 with
    | some pw => .ok (pw.name, pw.dir)
    | none => .error 1

/-- `ansible_setup.py` `discover_home_users`: accounts other than `root`
with uid ≥ 1000 whose home is under `/home/` and exists on disk
(`dirExists` models `Path(...).exists()`). -/
def discover_home_users (db : List Pwd) (dirExists : PyStr → Bool) : List Pwd :=
  db.filter (fun e =>
    !(e.name = pystr "root" : Bool) && decide (1000 ≤ e.uid)
      && isPrefixB (pystr "/home/") e.dir && dirExists e.dir)

/-- The `for candidate in (SUDO_USER, USER, LOGNAME)` loop: skip falsy or
`"root"` candidates and unknown accounts, return the first resolvable one. -/
def tryCandidates (cs : List (Option PyStr)) (db : List Pwd) : Option Pwd :=
  match cs with
  | [] => none
  | c :: rest =>
    match pyTruthy c with
    | none => tryCandidates rest db
    | some s =>
      if s = pystr "root" then tryCandidates rest db
      else
        match getpwnam db s with
        | some pw => some pw
        | none => tryCandidates rest db

/-- `ansible_setup.py` `resolve_target_user`.  `.ok none` models the
`(None, None)` return; the messages carry the auto-selection notice. -/
def resolve_target_user (explicit sudo_user user_env logname : Option PyStr)
    (euid uid : Nat) (db : List Pwd) (dirExists : PyStr → Bool) :
    Except Nat (Option (PyStr × PyStr)) × List PyStr :=
  match pyTruthy explicit with
  | some e =>
    match getpwnam db e with
    | some pw => (.ok (some (pw.name, pw.dir)), [])
    | none => (.error 1, [pystr "ERROR: user does not exist."])
  | none =>
    match tryCandidates [sudo_user, user_env, logname] db with
    | some pw => (.ok (some (pw.name, pw.dir)), [])
    | none =>
      if euid = 0 then
        match discover_home_users db dirExists with
        | [pw] => (.ok (some (pw.name, pw.dir)),
                   [pystr "NOTICE: Auto-selected target user " ++ pw.name])
        | _ => (.ok none, [])
      else
        match getpwuid db uid with
        | some c => (.ok (some (c.name, c.dir)), [])
        | none => (.error 9, [])

/-- `ansible_setup.py` `main`'s guard after resolution: running as root with
no resolved target user exits with code 1. -/
def main_resolve (explicit sudo_user user_env logname : Option PyStr)
    (euid uid : Nat) (db : List Pwd) (dirExists : PyStr → Bool) :
    Except Nat (Option (PyStr × PyStr)) × List PyStr :=
  let r := resolve_target_user explicit sudo_user user_env logname euid uid db dirExists
  match r.1 with
  | .ok none =>
    if euid = 0 then
      (.error 1, r.2 ++ [pystr "ERROR: Running as root, but could not determine a non-root target user."])
    else r
  | _ => r

/-! ## Basic lemmas: `dropWhile`, `rstrip`, `strip`. -/

theorem dropWhile_append_all {p : α → Bool} {xs : List α} (ys : List α)
    (h : ∀ x ∈ xs, p x = true) : (xs ++ ys).dropWhile p = ys.dropWhile p := by
  induction xs with
  | nil => rfl
  | cons a t ih =>
    have ha := h a (List.mem_cons_self a t)
    simp only [List.cons_append, List.dropWhile_cons, ha, if_true]
    exact ih (fun x hx => h x (List.mem_cons_of_mem a hx))

theorem dropWhile_append_keep {p : α → Bool} {xs : List α} (ys : List α)
    (h : xs.dropWhile p ≠ []) : (xs ++ ys).dropWhile p = xs.dropWhile p ++ ys := by
  induction xs with
  | nil => exact absurd rfl h
  | cons a t ih =>
    by_cases ha : p a = true
    · simp only [List.cons_append, List.dropWhile_cons, ha, if_true]
      simp only [List.dropWhile_cons, ha, if_true] at h
      exact ih h
    · have ha2 : p a = false := by revert ha; cases p a <;> simp
      simp [List.dropWhile_cons, ha2]

theorem dropWhile_head_false {p : α → Bool} {l : List α} {x : α} {xs : List α}
    (h : l.dropWhile p = x :: xs) : p x = false := by
  induction l with
  | nil => simp at h
  | cons a t ih =>
    by_cases ha : p a = true
    · simp only [List.dropWhile_cons, ha, if_true] at h
      exact ih h
    · have ha2 : p a = false := by revert ha; cases p a <;> simp
      rw [List.dropWhile_cons, ha2] at h
      simp only [Bool.false_eq_true, if_false] at h
      injection h with h1 h2
      rw [← h1]
      exact ha2

theorem dropWhile_idem {p : α → Bool} (l : List α) :
    (l.dropWhile p).dropWhile p = l.dropWhile p := by
  induction l with
  | nil => rfl
  | cons a t ih =>
    by_cases ha : p a = true
    · simp only [List.dropWhile_cons, ha, if_true]; exact ih
    · have ha2 : p a = false := by revert ha; cases p a <;> simp
      simp [List.dropWhile_cons, ha2]

theorem rstrip_append_ws {w : PyStr} (a : PyStr) (h : ∀ c ∈ w, isWs c = true) :
    rstrip (a ++ w) = rstrip a := by
  unfold rstrip
  rw [List.reverse_append, dropWhile_append_all a.reverse
    (fun c hc => h c (List.mem_reverse.mp hc))]

theorem rstrip_append_keep {b : PyStr} (a : PyStr) (h : rstrip b ≠ []) :
    rstrip (a ++ b) = a ++ rstrip b := by
  have hb : b.reverse.dropWhile isWs ≠ [] := by
    intro h2; apply h; unfold rstrip; rw [h2]; rfl
  unfold rstrip
  rw [List.reverse_append, dropWhile_append_keep a.reverse hb, List.reverse_append,
    List.reverse_reverse]

theorem rstrip_spec (s : PyStr) :
    ∃ t, s = rstrip s ++ t ∧ ∀ c ∈ t, isWs c = true := by
  refine ⟨(s.reverse.takeWhile isWs).reverse, ?_, ?_⟩
  · conv_lhs => rw [← s.reverse_reverse, ← List.takeWhile_append_dropWhile (p := isWs) (l := s.reverse)]
    rw [List.reverse_append]; rfl
  · intro c hc
    exact List.mem_takeWhile_imp (List.mem_reverse.mp hc)

theorem rstrip_idem (s : PyStr) : rstrip (rstrip s) = rstrip s := by
  unfold rstrip
  rw [List.reverse_reverse, dropWhile_idem]

theorem rstrip_eq_nil_iff {s : PyStr} : rstrip s = [] ↔ wsOnly s = true := by
  unfold rstrip wsOnly
  rw [List.reverse_eq_nil_iff, List.dropWhile_eq_nil_iff, List.all_eq_true]
  constructor
  · intro h c hc; exact h c (List.mem_reverse.mpr hc)
  · intro h c hc; exact h c (List.mem_reverse.mp hc)

theorem rstrip_concat_nonws {c : Char} (xs : PyStr) (h : isWs c = false) :
    rstrip (xs ++ [c]) = xs ++ [c] := by
  unfold rstrip
  rw [List.reverse_append]
  simp [List.dropWhile_cons, h]

theorem rstrip_cons_keep {s : PyStr} (c : Char) (h : rstrip s ≠ []) :
    rstrip (c :: s) = c :: rstrip s := by
  have := rstrip_append_keep (b := s) [c] h
  simpa using this

theorem wsOnly_rstrip (s : PyStr) : wsOnly (rstrip s) = wsOnly s := by
  by_cases h : wsOnly s = true
  · rw [h, rstrip_eq_nil_iff.mpr h]; rfl
  · have h2 : rstrip s ≠ [] := fun h3 => h (rstrip_eq_nil_iff.mp h3)
    have h3 : wsOnly (rstrip s) = false := by
      rcases h4 : (s.reverse.dropWhile isWs) with _ | ⟨x, xs⟩
      · exact absurd (by unfold rstrip; rw [h4]; rfl) h2
      · have hx : isWs x = false := dropWhile_head_false h4
        have hmem : x ∈ rstrip s := by
          unfold rstrip; rw [h4]; simp
        unfold wsOnly
        rcases h5 : (rstrip s).all isWs with _ | _
        · rfl
        · have := (List.all_eq_true.mp h5) x hmem
          rw [hx] at this; cases this
    rw [h3]
    rcases h6 : wsOnly s with _ | _
    · rfl
    · exact absurd h6 h

theorem mem_rstrip {s : PyStr} {c : Char} (h : c ∈ rstrip s) : c ∈ s := by
  obtain ⟨t, ht, _⟩ := rstrip_spec s
  rw [ht]; exact List.mem_append_left t h

theorem strip_rstrip (s : PyStr) : strip (rstrip s) = strip s := by
  unfold strip
  rw [rstrip_idem]

/-! ## Lemmas: `isPrefixB`, `hasSub`. -/

theorem isPrefixB_iff {n h : PyStr} : isPrefixB n h = true ↔ ∃ t, h = n ++ t := by
  induction n generalizing h with
  | nil => simp [isPrefixB]
  | cons a as ih =>
    cases h with
    | nil =>
      simp only [isPrefixB]
      constructor
      · intro h2; cases h2
      · rintro ⟨t, ht⟩; cases ht
    | cons b bs =>
      simp only [isPrefixB, Bool.and_eq_true, decide_eq_true_eq, ih]
      constructor
      · rintro ⟨rfl, t, rfl⟩; exact ⟨t, rfl⟩
      · rintro ⟨t, ht⟩
        injection ht with h1 h2
        exact ⟨h1.symm, t, h2⟩

theorem hasSub_iff {n h : PyStr} : hasSub n h = true ↔ ∃ a b, h = a ++ n ++ b := by
  induction h with
  | nil =>
    simp only [hasSub, List.isEmpty_iff]
    constructor
    · rintro rfl; exact ⟨[], [], rfl⟩
    · rintro ⟨a, b, hab⟩
      rcases List.append_eq_nil.mp hab.symm with ⟨h1, h2⟩
      exact (List.append_eq_nil.mp h1).2
  | cons c t ih =>
    simp only [hasSub, Bool.or_eq_true, isPrefixB_iff, ih]
    constructor
    · rintro (⟨r, hr⟩ | ⟨a, b, hab⟩)
      · exact ⟨[], r, by simpa using hr⟩
      · exact ⟨c :: a, b, by simp [hab]⟩
    · rintro ⟨a, b, hab⟩
      cases a with
      | nil => exact Or.inl ⟨b, by simpa using hab⟩
      | cons a0 as =>
        injection hab with h1 h2
        exact Or.inr ⟨as, b, h2⟩

theorem hasSub_concat_ws {n h : PyStr} {c : Char} (hn : n ≠ [])
    (hnw : ∀ x ∈ n, isWs x = false) (hc : isWs c = true)
    (hsub : hasSub n (h ++ [c]) = true) : hasSub n h = true := by
  obtain ⟨a, b, hab⟩ := hasSub_iff.mp hsub
  have hrev := congrArg List.reverse hab
  simp only [List.reverse_append] at hrev
  cases hb : b.reverse with
  | nil =>
    rw [hb] at hrev
    simp only [List.nil_append, List.reverse_cons, List.reverse_nil, List.nil_append] at hrev
    cases hn2 : n.reverse with
    | nil => exact absurd (by simpa using congrArg List.reverse hn2) hn
    | cons x xs =>
      rw [hn2] at hrev
      injection hrev with h1 h2
      have hx : x ∈ n := List.mem_reverse.mp (by rw [hn2]; exact List.mem_cons_self x xs)
      rw [← h1] at hx
      rw [hnw c hx] at hc
      cases hc
  | cons x xs =>
    rw [hb] at hrev
    simp only [List.reverse_cons, List.cons_append] at hrev
    injection hrev with h1 h2
    apply hasSub_iff.mpr
    refine ⟨a, xs.reverse, ?_⟩
    have h3 := congrArg List.reverse h2
    simp only [List.append_eq, List.nil_append, List.reverse_reverse,
      List.reverse_append] at h3
    rw [h3]

theorem hasSub_append_ws {n h w : PyStr} (hn : n ≠ [])
    (hnw : ∀ x ∈ n, isWs x = false) (hw : ∀ x ∈ w, isWs x = true)
    (hsub : hasSub n (h ++ w) = true) : hasSub n h = true := by
  induction w using List.reverseRecOn generalizing h with
  | nil => simpa using hsub
  | append_singleton w0 c ih =>
    have hc : isWs c = true := hw c (by simp)
    rw [← List.append_assoc] at hsub
    have := hasSub_concat_ws hn hnw hc hsub
    exact ih (fun x hx => hw x (by simp [hx])) this

theorem hasSub_mono {n a b : PyStr} (h : hasSub n a = true) :
    hasSub n (a ++ b) = true := by
  obtain ⟨x, y, hxy⟩ := hasSub_iff.mp h
  exact hasSub_iff.mpr ⟨x, y ++ b, by simp [hxy]⟩

theorem hasSub_rstrip {n : PyStr} (l : PyStr) (hn : n ≠ [])
    (hnw : ∀ x ∈ n, isWs x = false) : hasSub n (rstrip l) = hasSub n l := by
  obtain ⟨t, ht, htw⟩ := rstrip_spec l
  rcases h2 : hasSub n l with _ | _
  · rcases h3 : hasSub n (rstrip l) with _ | _
    · rfl
    · rw [← h2, ← hasSub_mono (b := t) h3, ← ht]
  · rw [ht] at h2
    exact hasSub_append_ws hn hnw htw h2

theorem startsHash_rstrip {l : PyStr} (h : startsHash l = false) :
    startsHash (rstrip l) = false := by
  obtain ⟨t, ht, _⟩ := rstrip_spec l
  cases hr : rstrip l with
  | nil => rfl
  | cons x xs =>
    rw [ht, hr] at h
    revert h
    simp only [startsHash, pystr, List.cons_append, isPrefixB]
    intro h
    simpa using h

theorem lineMatches_rstrip (l : PyStr) : lineMatches (rstrip l) = lineMatches l := by
  unfold lineMatches
  rw [strip_rstrip, hasSub_rstrip l (by decide) (by decide)]

/-! ## Lemmas: `splitlines` and `joinLines`. -/

theorem splitlinesAux_cons_nonbreak {c : Char} (t acc : List Char)
    (h1 : isBreakChar c = false) :
    splitlinesAux (c :: t) acc = splitlinesAux t (c :: acc) := by
  rw [splitlinesAux.eq_3]
  · rw [h1]; simp
  · intro t1 hc ht
    rw [hc] at h1
    simp [isBreakChar] at h1

theorem splitlinesAux_cons_newline (t acc : List Char) :
    splitlinesAux ('\n' :: t) acc = acc.reverse :: splitlinesAux t [] := by
  rw [splitlinesAux.eq_3]
  · simp [isBreakChar]
  · intro t1 hc ht
    cases hc

theorem splitlinesAux_breakFree :
    ∀ (s acc : List Char), (∀ c ∈ acc, isBreakChar c = false) →
      ∀ l ∈ splitlinesAux s acc, breakFree l = true := by
  intro s acc
  induction s, acc using splitlinesAux.induct with
  | case1 acc hacc =>
    intro _ l hl
    rw [splitlinesAux.eq_1, if_pos hacc] at hl
    cases hl
  | case2 acc hacc =>
    intro hb l hl
    rw [splitlinesAux.eq_1, if_neg hacc] at hl
    rcases List.mem_cons.mp hl with rfl | hl
    · unfold breakFree
      rw [List.all_eq_true]
      intro c hc
      simpa using hb c (List.mem_reverse.mp hc)
    · cases hl
  | case3 t acc ih =>
    intro hb l hl
    rw [splitlinesAux.eq_2] at hl
    rcases List.mem_cons.mp hl with rfl | hl
    · unfold breakFree
      rw [List.all_eq_true]
      intro c hc
      simpa using hb c (List.mem_reverse.mp hc)
    · exact ih (fun c hc => absurd hc (List.not_mem_nil c)) l hl
  | case4 c t acc hne hbc ih =>
    intro hb l hl
    rw [splitlinesAux.eq_3 _ _ _ hne, if_pos hbc] at hl
    rcases List.mem_cons.mp hl with rfl | hl
    · unfold breakFree
      rw [List.all_eq_true]
      intro c2 hc2
      simpa using hb c2 (List.mem_reverse.mp hc2)
    · exact ih (fun c2 hc2 => absurd hc2 (List.not_mem_nil c2)) l hl
  | case5 c t acc hne hbc ih =>
    intro hb l hl
    have hbc2 : isBreakChar c = false := by revert hbc; cases isBreakChar c <;> simp
    rw [splitlinesAux.eq_3 _ _ _ hne, hbc2] at hl
    simp only [Bool.false_eq_true, if_false] at hl
    refine ih ?_ l hl
    intro c2 hc2
    rcases List.mem_cons.mp hc2 with rfl | hc3
    · exact hbc2
    · exact hb c2 hc3

theorem splitlines_breakFree {s : PyStr} : ∀ l ∈ splitlines s, breakFree l = true :=
  splitlinesAux_breakFree s [] (fun c hc => absurd hc (List.not_mem_nil c))

theorem splitlinesAux_append_line {x : PyStr} (hx : breakFree x = true) :
    ∀ (acc r : List Char),
      splitlinesAux (x ++ '\n' :: r) acc = (acc.reverse ++ x) :: splitlinesAux r [] := by
  induction x with
  | nil =>
    intro acc r
    simpa using splitlinesAux_cons_newline r acc
  | cons c t ih =>
    intro acc r
    have hc : isBreakChar c = false := by
      have := (List.all_eq_true.mp hx) c (List.mem_cons_self c t)
      simpa using this
    have ht : breakFree t = true := by
      unfold breakFree
      rw [List.all_eq_true]
      intro c2 hc2
      exact (List.all_eq_true.mp hx) c2 (List.mem_cons_of_mem c hc2)
    rw [List.cons_append, splitlinesAux_cons_nonbreak _ _ hc, ih ht]
    simp

theorem splitlines_joinLines {ls : List PyStr} (hne : ls ≠ [])
    (hbf : ∀ l ∈ ls, breakFree l = true) :
    splitlines (joinLines ls ++ ['\n']) = ls := by
  induction ls with
  | nil => exact absurd rfl hne
  | cons x t ih =>
    cases t with
    | nil =>
      unfold splitlines
      have : joinLines [x] ++ ['\n'] = x ++ '\n' :: [] := rfl
      rw [this, splitlinesAux_append_line (hbf x (List.mem_cons_self x [])) [] []]
      rfl
    | cons y t2 =>
      unfold splitlines
      have h1 : joinLines (x :: y :: t2) ++ ['\n'] = x ++ '\n' :: (joinLines (y :: t2) ++ ['\n']) := by
        show (x ++ '\n' :: joinLines (y :: t2)) ++ ['\n'] = _
        simp
      rw [h1, splitlinesAux_append_line (hbf x (List.mem_cons_self x _)) [] _]
      have ih2 := ih (by intro h; cases h)
        (fun l hl => hbf l (List.mem_cons_of_mem x hl))
      unfold splitlines at ih2
      simp only [List.reverse_nil, List.nil_append]
      rw [ih2]

theorem joinLines_append_single {ls : List PyStr} (x : PyStr) (hne : ls ≠ []) :
    joinLines (ls ++ [x]) = joinLines ls ++ '\n' :: x := by
  induction ls with
  | nil => exact absurd rfl hne
  | cons a t ih =>
    cases t with
    | nil => rfl
    | cons b t2 =>
      have h1 : joinLines ((a :: b :: t2) ++ [x]) = a ++ '\n' :: joinLines ((b :: t2) ++ [x]) := rfl
      rw [h1, ih (by intro h; cases h)]
      simp [joinLines]

/-! ## Lemmas: `dropTrailingWsLines`, `modifyLast`, `rtrimLines`. -/

theorem dropTrailingWsLines_append_ws {x : PyStr} (ls : List PyStr)
    (h : wsOnly x = true) :
    dropTrailingWsLines (ls ++ [x]) = dropTrailingWsLines ls := by
  unfold dropTrailingWsLines
  rw [List.reverse_append]
  simp [List.dropWhile_cons, h]

theorem dropTrailingWsLines_append_keep {x : PyStr} (ls : List PyStr)
    (h : wsOnly x = false) :
    dropTrailingWsLines (ls ++ [x]) = ls ++ [x] := by
  unfold dropTrailingWsLines
  rw [List.reverse_append]
  simp [List.dropWhile_cons, h]

theorem dropTrailingWsLines_spec (ls : List PyStr) :
    ∃ t, ls = dropTrailingWsLines ls ++ t ∧ ∀ l ∈ t, wsOnly l = true := by
  refine ⟨(ls.reverse.takeWhile wsOnly).reverse, ?_, ?_⟩
  · conv_lhs => rw [← ls.reverse_reverse,
      ← List.takeWhile_append_dropWhile (p := wsOnly) (l := ls.reverse)]
    rw [List.reverse_append]; rfl
  · intro l hl
    exact List.mem_takeWhile_imp (List.mem_reverse.mp hl)

theorem mem_dropTrailingWsLines {ls : List PyStr} {l : PyStr}
    (h : l ∈ dropTrailingWsLines ls) : l ∈ ls := by
  obtain ⟨t, ht, _⟩ := dropTrailingWsLines_spec ls
  rw [ht]; exact List.mem_append_left t h

theorem modifyLast_append_single (f : α → α) (ls : List α) (x : α) :
    modifyLast f (ls ++ [x]) = ls ++ [f x] := by
  induction ls with
  | nil => rfl
  | cons a t ih =>
    cases t with
    | nil => rfl
    | cons b t2 =>
      have h1 : modifyLast f ((a :: b :: t2) ++ [x]) = a :: modifyLast f ((b :: t2) ++ [x]) := rfl
      rw [h1, ih]
      rfl

theorem modifyLast_append {ys : List α} (f : α → α) (xs : List α) (hne : ys ≠ []) :
    modifyLast f (xs ++ ys) = xs ++ modifyLast f ys := by
  induction xs with
  | nil => rfl
  | cons a t ih =>
    rcases hys : t ++ ys with _ | ⟨b, t2⟩
    · exact absurd (List.append_eq_nil.mp hys).2 hne
    · have h1 : modifyLast f ((a :: t) ++ ys) = a :: modifyLast f (t ++ ys) := by
        show modifyLast f (a :: (t ++ ys)) = _
        rw [hys]
        rfl
      rw [h1, ih]
      rfl

theorem mem_modifyLast {f : α → α} {ls : List α} {l : α} (h : l ∈ modifyLast f ls) :
    l ∈ ls ∨ ∃ x ∈ ls, l = f x := by
  induction ls with
  | nil => cases h
  | cons a t ih =>
    cases t with
    | nil =>
      rcases List.mem_cons.mp h with rfl | h2
      · exact Or.inr ⟨a, List.mem_cons_self a [], rfl⟩
      · cases h2
    | cons b t2 =>
      rcases List.mem_cons.mp h with rfl | h2
      · exact Or.inl (List.mem_cons_self l _)
      · rcases ih h2 with h3 | ⟨x, hx, hfx⟩
        · exact Or.inl (List.mem_cons_of_mem a h3)
        · exact Or.inr ⟨x, List.mem_cons_of_mem a hx, hfx⟩

theorem rstrip_joinLines (ls : List PyStr) :
    rstrip (joinLines ls) = joinLines (rtrimLines ls) := by
  induction ls using List.reverseRecOn with
  | nil => rfl
  | append_singleton t x ih =>
    rcases ht : t with _ | ⟨a, t2⟩
    · rcases hx : wsOnly x with _ | _
      · have h1 : rtrimLines [x] = [rstrip x] := by
          unfold rtrimLines
          rw [show ([x] : List PyStr) = [] ++ [x] from rfl,
            dropTrailingWsLines_append_keep [] hx]
          rfl
        rw [List.nil_append, h1]
        rfl
      · have h1 : rtrimLines [x] = [] := by
          unfold rtrimLines
          rw [show ([x] : List PyStr) = [] ++ [x] from rfl, dropTrailingWsLines_append_ws [] hx]
          rfl
        rw [List.nil_append, h1]
        show rstrip x = joinLines []
        rw [rstrip_eq_nil_iff.mpr hx]
        rfl
    · rw [← ht]
      have htne : t ≠ [] := by rw [ht]; intro h; cases h
      rw [joinLines_append_single x htne]
      rcases hx : wsOnly x with _ | _
      · have hxr : rstrip ('\n' :: x) = '\n' :: rstrip x := by
          apply rstrip_cons_keep
          intro h
          rw [rstrip_eq_nil_iff.mp h] at hx
          cases hx
        have h2 : rstrip (joinLines t ++ '\n' :: x) = joinLines t ++ '\n' :: rstrip x := by
          rw [rstrip_append_keep (joinLines t) (by rw [hxr]; intro h; cases h), hxr]
        rw [h2]
        unfold rtrimLines
        rw [dropTrailingWsLines_append_keep t hx, modifyLast_append_single,
          joinLines_append_single _ htne]
      · have h2 : rstrip (joinLines t ++ '\n' :: x) = rstrip (joinLines t) := by
          apply rstrip_append_ws
          intro c hc
          rcases List.mem_cons.mp hc with rfl | hc2
          · rfl
          · exact (List.all_eq_true.mp hx) c hc2
        rw [h2, ih]
        unfold rtrimLines
        rw [dropTrailingWsLines_append_ws t hx]

theorem rtrimLines_insert {m : PyStr} (A B : List PyStr)
    (hm : wsOnly m = false) (hm2 : rstrip m = m) :
    rtrimLines (A ++ m :: B) = A ++ m :: rtrimLines B := by
  unfold rtrimLines
  rcases hB : B.reverse.dropWhile wsOnly with _ | ⟨x, xs⟩
  · have hBd : dropTrailingWsLines B = [] := by
      unfold dropTrailingWsLines; rw [hB]; rfl
    have hBw : ∀ l ∈ B.reverse, wsOnly l = true := List.dropWhile_eq_nil_iff.mp hB
    have h1 : dropTrailingWsLines (A ++ m :: B) = A ++ [m] := by
      unfold dropTrailingWsLines
      rw [List.reverse_append, List.reverse_cons, List.append_assoc,
        dropWhile_append_all _ (fun l hl => hBw l hl)]
      simp [List.dropWhile_cons, hm]
    rw [h1, hBd, modifyLast_append_single]
    rw [hm2]
    rfl
  · have hBd : dropTrailingWsLines B = (x :: xs).reverse := by
      unfold dropTrailingWsLines; rw [hB]
    have h1 : dropTrailingWsLines (A ++ m :: B) = A ++ m :: (x :: xs).reverse := by
      unfold dropTrailingWsLines
      rw [List.reverse_append, List.reverse_cons, List.append_assoc,
        dropWhile_append_keep _ (by rw [hB]; intro h; cases h), hB]
      simp
    have h2 : modifyLast rstrip (m :: (x :: xs).reverse) =
        m :: modifyLast rstrip (x :: xs).reverse := by
      rcases hrev : (x :: xs).reverse with _ | ⟨b, t2⟩
      · exact absurd hrev (by simp)
      · rfl
    rw [h1, hBd, modifyLast_append _ A (by intro h; cases h), h2]

theorem rtrimLines_rtrimLines (ls : List PyStr) :
    rtrimLines (rtrimLines ls) = rtrimLines ls := by
  rcases hD : ls.reverse.dropWhile wsOnly with _ | ⟨x, xs⟩
  · have h1 : rtrimLines ls = [] := by
      unfold rtrimLines dropTrailingWsLines
      rw [hD]
      rfl
    rw [h1]
    rfl
  · have hx : wsOnly x = false := dropWhile_head_false hD
    have h1 : rtrimLines ls = xs.reverse ++ [rstrip x] := by
      unfold rtrimLines dropTrailingWsLines
      rw [hD, List.reverse_cons, modifyLast_append_single]
    have hx2 : wsOnly (rstrip x) = false := by rw [wsOnly_rstrip]; exact hx
    rw [h1]
    unfold rtrimLines
    rw [dropTrailingWsLines_append_keep _ hx2, modifyLast_append_single, rstrip_idem]

/-! ## Lemmas: the inserted stanza line. -/

theorem pamLine_cons (p : PyStr) :
    pamLine p = 'a' :: (pystr "uth required pam_u2f.so authfile=" ++ p ++ pystr " cue") := by
  unfold pamLine
  rw [show pystr "auth required pam_u2f.so authfile="
      = 'a' :: pystr "uth required pam_u2f.so authfile=" from by decide]
  simp

theorem wsOnly_pamLine (p : PyStr) : wsOnly (pamLine p) = false := by
  rw [pamLine_cons]
  unfold wsOnly
  rw [List.all_cons, show isWs 'a' = false from by decide]
  rfl

theorem startsHash_pamLine (p : PyStr) : startsHash (pamLine p) = false := by
  rw [pamLine_cons]
  unfold startsHash
  rw [show pystr "#" = ['#'] from by decide]
  unfold isPrefixB
  rw [show (decide ('#' = 'a')) = false from by decide]
  rfl

theorem rstrip_pamLine (p : PyStr) : rstrip (pamLine p) = pamLine p := by
  unfold pamLine
  rw [rstrip_append_keep _ (by decide)]
  rw [show rstrip (pystr " cue") = pystr " cue" from by decide]

theorem strip_pamLine (p : PyStr) : strip (pamLine p) = pamLine p := by
  unfold strip
  rw [rstrip_pamLine]
  unfold lstrip
  rw [pamLine_cons, List.dropWhile_cons, show isWs 'a' = false from by decide]
  rfl

theorem lineMatches_pamLine (p : PyStr) : lineMatches (pamLine p) = true := by
  unfold lineMatches
  rw [Bool.and_eq_true]
  constructor
  · apply hasSub_iff.mpr
    refine ⟨pystr "auth required ", pystr " authfile=" ++ p ++ pystr " cue", ?_⟩
    unfold pamLine
    rw [show pystr "auth required pam_u2f.so authfile="
        = (pystr "auth required " ++ pystr "pam_u2f.so") ++ pystr " authfile=" from by decide]
    simp
  · rw [strip_pamLine]
    apply isPrefixB_iff.mpr
    refine ⟨pystr " required pam_u2f.so authfile=" ++ p ++ pystr " cue", ?_⟩
    unfold pamLine
    rw [show pystr "auth required pam_u2f.so authfile="
        = pystr "auth" ++ pystr " required pam_u2f.so authfile=" from by decide]
    simp

theorem breakFree_rstrip {l : PyStr} (h : breakFree l = true) :
    breakFree (rstrip l) = true := by
  unfold breakFree at *
  rw [List.all_eq_true] at *
  intro c hc
  exact h c (mem_rstrip hc)

theorem breakFree_pamLine {p : PyStr} (hp : breakFree p = true) :
    breakFree (pamLine p) = true := by
  unfold pamLine breakFree at *
  rw [List.all_append, List.all_append]
  rw [show (pystr "auth required pam_u2f.so authfile=").all (fun c => !isBreakChar c)
      = true from by decide,
    show (pystr " cue").all (fun c => !isBreakChar c) = true from by decide, hp]
  rfl

/-! ## Lemmas: structure of the transform's output. -/

theorem listInsertAt_append (A : List α) (x : α) (B : List α) :
    listInsertAt A.length x (A ++ B) = A ++ x :: B := by
  induction A with
  | nil => rfl
  | cons a t ih =>
    show a :: listInsertAt t.length x (t ++ B) = a :: (t ++ x :: B)
    rw [ih]

theorem mem_of_takeWhile {p : α → Bool} {l : List α} {x : α}
    (h : x ∈ l.takeWhile p) : x ∈ l := by
  rw [← List.takeWhile_append_dropWhile (p := p) (l := l)]
  exact List.mem_append_left _ h

theorem mem_of_dropWhile {p : α → Bool} {l : List α} {x : α}
    (h : x ∈ l.dropWhile p) : x ∈ l := by
  rw [← List.takeWhile_append_dropWhile (p := p) (l := l)]
  exact List.mem_append_right _ h

theorem keptLines_not_matches {content : PyStr} {l : PyStr}
    (h : l ∈ keptLines content) : lineMatches l = false := by
  have := (List.mem_filter.mp h).2
  revert this
  cases lineMatches l <;> simp

theorem keptLines_breakFree {content : PyStr} {l : PyStr}
    (h : l ∈ keptLines content) : breakFree l = true :=
  splitlines_breakFree l (List.mem_filter.mp h).1

theorem mem_rtrimLines_not_matches {B : List PyStr} {l : PyStr}
    (hB : ∀ x ∈ B, lineMatches x = false) (h : l ∈ rtrimLines B) :
    lineMatches l = false := by
  rcases mem_modifyLast h with h2 | ⟨x, hx, rfl⟩
  · exact hB l (mem_dropTrailingWsLines h2)
  · rw [lineMatches_rstrip]
    exact hB x (mem_dropTrailingWsLines hx)

theorem mem_rtrimLines_breakFree {B : List PyStr} {l : PyStr}
    (hB : ∀ x ∈ B, breakFree x = true) (h : l ∈ rtrimLines B) :
    breakFree l = true := by
  rcases mem_modifyLast h with h2 | ⟨x, hx, rfl⟩
  · exact hB l (mem_dropTrailingWsLines h2)
  · exact breakFree_rstrip (hB x (mem_dropTrailingWsLines hx))

theorem newLines_eq (p content : PyStr) :
    newLines p content = (keptLines content).takeWhile startsHash
      ++ pamLine p :: (keptLines content).dropWhile startsHash := by
  unfold newLines pamInsertIdx
  have h := listInsertAt_append ((keptLines content).takeWhile startsHash) (pamLine p)
    ((keptLines content).dropWhile startsHash)
  rw [List.takeWhile_append_dropWhile] at h
  exact h

theorem splitlines_updatedText {p : PyStr} (content : PyStr) (hp : breakFree p = true) :
    splitlines (updatedText p content) =
      (keptLines content).takeWhile startsHash
        ++ pamLine p :: rtrimLines ((keptLines content).dropWhile startsHash) := by
  unfold updatedText
  rw [newLines_eq, rstrip_joinLines,
    rtrimLines_insert _ _ (wsOnly_pamLine p) (rstrip_pamLine p)]
  apply splitlines_joinLines
  · intro h
    rcases List.append_eq_nil.mp h with ⟨_, h2⟩
    cases h2
  · intro l hl
    rcases List.mem_append.mp hl with h2 | h2
    · exact keptLines_breakFree (mem_of_takeWhile h2)
    · rcases List.mem_cons.mp h2 with rfl | h3
      · exact breakFree_pamLine hp
      · exact mem_rtrimLines_breakFree
          (fun x hx => keptLines_breakFree (mem_of_dropWhile hx)) h3

/-! ## Lemmas: counting matching lines in the output. -/

theorem countP_matches_A (content : PyStr) :
    ((keptLines content).takeWhile startsHash).countP (fun l => lineMatches l) = 0 := by
  rw [List.countP_eq_zero]
  intro a ha
  rw [keptLines_not_matches (mem_of_takeWhile ha)]
  simp

theorem countP_matches_rtrimB (content : PyStr) :
    (rtrimLines ((keptLines content).dropWhile startsHash)).countP
      (fun l => lineMatches l) = 0 := by
  rw [List.countP_eq_zero]
  intro a ha
  rw [mem_rtrimLines_not_matches
    (fun x hx => keptLines_not_matches (mem_of_dropWhile hx)) ha]
  simp

theorem countP_matches_updatedText {p : PyStr} (content : PyStr)
    (hp : breakFree p = true) :
    (splitlines (updatedText p content)).countP (fun l => lineMatches l) = 1 := by
  rw [splitlines_updatedText content hp, List.countP_append,
    List.countP_cons_of_pos _ _ (lineMatches_pamLine p),
    countP_matches_A, countP_matches_rtrimB]

/-! ## Lemmas: the second run reproduces the first run's output. -/

theorem dropWhile_eq_self_of_all_false {p : α → Bool} {l : List α}
    (h : ∀ x ∈ l, p x = false) : l.dropWhile p = l := by
  cases l with
  | nil => rfl
  | cons a t =>
    rw [List.dropWhile_cons, h a (List.mem_cons_self a t)]
    simp

theorem modifyLast_eq_self {f : α → α} {ls : List α}
    (h : ∀ x ∈ ls, f x = x) : modifyLast f ls = ls := by
  induction ls with
  | nil => rfl
  | cons a t ih =>
    cases t with
    | nil =>
      show [f a] = [a]
      rw [h a (List.mem_cons_self a [])]
    | cons b t2 =>
      show a :: modifyLast f (b :: t2) = a :: b :: t2
      rw [ih (fun x hx => h x (List.mem_cons_of_mem a hx))]

theorem takeWhile_append_eq {q : α → Bool} {A G : List α}
    (hA : ∀ a ∈ A, q a = true) (hG : ∀ h2 t2, G = h2 :: t2 → q h2 = false) :
    (A ++ G).takeWhile q = A := by
  induction A with
  | nil =>
    cases hGc : G with
    | nil => rfl
    | cons h2 t2 =>
      rw [List.nil_append, List.takeWhile_cons, hG h2 t2 hGc]
      simp
  | cons a t ih =>
    rw [List.cons_append, List.takeWhile_cons, hA a (List.mem_cons_self a t)]
    simp only [if_true]
    rw [ih (fun x hx => hA x (List.mem_cons_of_mem a hx))]

theorem head_rtrimLines_startsHash {B : List PyStr}
    (hB : ∀ d dr, B = d :: dr → startsHash d = false) :
    ∀ h2 t2, rtrimLines B = h2 :: t2 → startsHash h2 = false := by
  intro h2 t2 hr
  obtain ⟨w, hw, _⟩ := dropTrailingWsLines_spec B
  rcases hD : dropTrailingWsLines B with _ | ⟨d, dr⟩
  · unfold rtrimLines at hr
    rw [hD] at hr
    cases hr
  · have hd : startsHash d = false := by
      apply hB d (dr ++ w)
      rw [hw, hD]
      simp
    unfold rtrimLines at hr
    rw [hD] at hr
    cases dr with
    | nil =>
      injection hr with hr1 _
      rw [← hr1]
      exact startsHash_rstrip hd
    | cons e dr2 =>
      injection hr with hr1 _
      rw [← hr1]
      exact hd

theorem keptLines_updatedText {p : PyStr} (content : PyStr) (hp : breakFree p = true) :
    keptLines (updatedText p content) =
      (keptLines content).takeWhile startsHash
        ++ rtrimLines ((keptLines content).dropWhile startsHash) := by
  have h1 : keptLines (updatedText p content)
      = (splitlines (updatedText p content)).filter (fun l => !lineMatches l) := rfl
  have hA : ((keptLines content).takeWhile startsHash).filter (fun l => !lineMatches l)
      = (keptLines content).takeWhile startsHash := by
    apply List.filter_eq_self.mpr
    intro a ha
    rw [keptLines_not_matches (mem_of_takeWhile ha)]
    rfl
  have hG : (rtrimLines ((keptLines content).dropWhile startsHash)).filter
        (fun l => !lineMatches l)
      = rtrimLines ((keptLines content).dropWhile startsHash) := by
    apply List.filter_eq_self.mpr
    intro a ha
    rw [mem_rtrimLines_not_matches
      (fun x hx => keptLines_not_matches (mem_of_dropWhile hx)) ha]
    rfl
  rw [h1, splitlines_updatedText content hp, List.filter_append, List.filter_cons,
    show (!lineMatches (pamLine p)) = false from by rw [lineMatches_pamLine]; rfl]
  simp only [Bool.false_eq_true, if_false]
  rw [hA, hG]

theorem removedCount_updatedText {p : PyStr} (content : PyStr)
    (hp : breakFree p = true) : removedCount (updatedText p content) = 1 := by
  unfold removedCount
  exact countP_matches_updatedText content hp

theorem pamInsertIdx_updatedText {p : PyStr} (content : PyStr)
    (hp : breakFree p = true) :
    pamInsertIdx (updatedText p content) = pamInsertIdx content := by
  unfold pamInsertIdx
  rw [keptLines_updatedText content hp]
  rw [takeWhile_append_eq (fun a ha => List.mem_takeWhile_imp ha)
    (head_rtrimLines_startsHash (fun d dr hd => dropWhile_head_false hd))]

theorem newLines_updatedText {p : PyStr} (content : PyStr) (hp : breakFree p = true) :
    newLines p (updatedText p content) =
      (keptLines content).takeWhile startsHash
        ++ pamLine p :: rtrimLines ((keptLines content).dropWhile startsHash) := by
  unfold newLines
  rw [keptLines_updatedText content hp, pamInsertIdx_updatedText content hp]
  unfold pamInsertIdx
  exact listInsertAt_append _ _ _

theorem updatedText_idem {p : PyStr} (content : PyStr) (hp : breakFree p = true) :
    updatedText p (updatedText p content) = updatedText p content := by
  conv_lhs => rw [updatedText, newLines_updatedText content hp]
  conv_rhs => rw [updatedText, newLines_eq]
  rw [rstrip_joinLines, rstrip_joinLines,
    rtrimLines_insert _ _ (wsOnly_pamLine p) (rstrip_pamLine p),
    rtrimLines_insert _ _ (wsOnly_pamLine p) (rstrip_pamLine p),
    rtrimLines_rtrimLines]

/-! ## Claim theorems. -/

/-- C1, counterexample: on the input text `" \n"` (one whitespace-only,
non-matching line) the mutator's output has exactly one matching stanza line
but zero non-matching lines, while the input had one — the final `rstrip`
of the joined text swallows the trailing whitespace-only line, so the
non-matching line count is not preserved and the claim as stated is false. -/
theorem stanza_dedup_counterexample :
    ¬ ((splitlines (updatedText (pystr "/etc/u2f_keys") (pystr " \n"))).countP
          (fun l => lineMatches l) = 1
        ∧ (splitlines (updatedText (pystr "/etc/u2f_keys") (pystr " \n"))).countP
            (fun l => !lineMatches l)
          = (splitlines (pystr " \n")).countP (fun l => !lineMatches l)) := by
  decide

theorem dropTrailingWsLines_eq_self {ls : List PyStr}
    (h : ∀ l ∈ ls, wsOnly l = false) : dropTrailingWsLines ls = ls := by
  unfold dropTrailingWsLines
  rw [dropWhile_eq_self_of_all_false (fun x hx => h x (List.mem_reverse.mp hx)),
    List.reverse_reverse]

/-- C1, amended: for every authentication-file text (and every single-line
authfile path), the mutator's output contains exactly one matching stanza
line; and whenever every non-matching input line is non-empty with no
trailing whitespace, the count of non-matching lines in the output equals
the count in the input.  (The whitespace proviso is forced by the final
`rstrip` of the joined text; see the counterexample.) -/
theorem stanza_dedup_amended (p content : PyStr) (hp : breakFree p = true) :
    (splitlines (updatedText p content)).countP (fun l => lineMatches l) = 1
      ∧ ((∀ l ∈ splitlines content, lineMatches l = false → (rstrip l = l ∧ l ≠ [])) →
          (splitlines (updatedText p content)).countP (fun l => !lineMatches l)
            = (splitlines content).countP (fun l => !lineMatches l)) := by
  constructor
  · exact countP_matches_updatedText content hp
  · intro hclean
    have hkept : ∀ l ∈ keptLines content, rstrip l = l ∧ l ≠ [] := by
      intro l hl
      exact hclean l (List.mem_filter.mp hl).1 (keptLines_not_matches hl)
    have hB : ∀ l ∈ (keptLines content).dropWhile startsHash, rstrip l = l ∧ l ≠ [] :=
      fun l hl => hkept l (mem_of_dropWhile hl)
    have hBws : ∀ l ∈ (keptLines content).dropWhile startsHash, wsOnly l = false := by
      intro l hl
      rcases hB l hl with ⟨h1, h2⟩
      rcases h3 : wsOnly l with _ | _
      · rfl
      · exact absurd (by rw [← h1, rstrip_eq_nil_iff.mpr h3]) h2
    have hrB : rtrimLines ((keptLines content).dropWhile startsHash)
        = (keptLines content).dropWhile startsHash := by
      unfold rtrimLines
      rw [dropTrailingWsLines_eq_self hBws,
        modifyLast_eq_self (fun x hx => (hB x hx).1)]
    rw [splitlines_updatedText content hp, hrB, List.countP_append,
      List.countP_cons_of_neg _ _
        (by rw [lineMatches_pamLine]; simp)]
    have hAlen : ((keptLines content).takeWhile startsHash).countP (fun l => !lineMatches l)
        = ((keptLines content).takeWhile startsHash).length := by
      rw [List.countP_eq_length]
      intro a ha
      rw [keptLines_not_matches (mem_of_takeWhile ha)]
      rfl
    have hBlen : ((keptLines content).dropWhile startsHash).countP (fun l => !lineMatches l)
        = ((keptLines content).dropWhile startsHash).length := by
      rw [List.countP_eq_length]
      intro a ha
      rw [keptLines_not_matches (mem_of_dropWhile ha)]
      rfl
    rw [hAlen, hBlen]
    have hsplit : ((keptLines content).takeWhile startsHash).length
        + ((keptLines content).dropWhile startsHash).length = (keptLines content).length := by
      rw [← List.length_append, List.takeWhile_append_dropWhile]
    rw [hsplit]
    unfold keptLines
    rw [← List.countP_eq_length_filter]

/-- C1 witness for the amended theorem, at a text with two matching lines,
a comment header and a clean non-matching body line. -/
theorem stanza_dedup_amended_witness :
    breakFree (pystr "/etc/u2f_keys") = true
      ∧ (∀ l ∈ splitlines (pystr "# hdr\nauth sufficient pam_u2f.so\nauth required pam_unix.so\nauth required pam_u2f.so cue\n"),
          lineMatches l = false → (rstrip l = l ∧ l ≠ []))
      ∧ (splitlines (updatedText (pystr "/etc/u2f_keys")
            (pystr "# hdr\nauth sufficient pam_u2f.so\nauth required pam_unix.so\nauth required pam_u2f.so cue\n"))).countP
            (fun l => lineMatches l) = 1
      ∧ (splitlines (updatedText (pystr "/etc/u2f_keys")
            (pystr "# hdr\nauth sufficient pam_u2f.so\nauth required pam_unix.so\nauth required pam_u2f.so cue\n"))).countP
            (fun l => !lineMatches l)
          = (splitlines (pystr "# hdr\nauth sufficient pam_u2f.so\nauth required pam_unix.so\nauth required pam_u2f.so cue\n")).countP
              (fun l => !lineMatches l) :=
  ⟨by decide, by decide,
   (stanza_dedup_amended (pystr "/etc/u2f_keys")
     (pystr "# hdr\nauth sufficient pam_u2f.so\nauth required pam_unix.so\nauth required pam_u2f.so cue\n")
     (by decide)).1,
   (stanza_dedup_amended (pystr "/etc/u2f_keys")
     (pystr "# hdr\nauth sufficient pam_u2f.so\nauth required pam_unix.so\nauth required pam_u2f.so cue\n")
     (by decide)).2 (by decide)⟩

/-- C2: the mutator's text transform is idempotent — a second run on its own
output (with the same single-line authfile path) reports removal count 1 and
reproduces the first run's output byte for byte; and on the initial text
`"# PAM config\nauth required pam_permit.so\n"` the first run reports
removal count 0 and inserts the stanza at line index 1. -/
theorem stanza_mutator_idempotent (p content : PyStr) (hp : breakFree p = true) :
    removedCount (updatedText p content) = 1
      ∧ updatedText p (updatedText p content) = updatedText p content
      ∧ removedCount (pystr "# PAM config\nauth required pam_permit.so\n") = 0
      ∧ (splitlines (updatedText p (pystr "# PAM config\nauth required pam_permit.so\n")))[1]?
          = some (pamLine p) := by
  refine ⟨removedCount_updatedText content hp, updatedText_idem content hp, by decide, ?_⟩
  rw [splitlines_updatedText _ hp,
    show (keptLines (pystr "# PAM config\nauth required pam_permit.so\n")).takeWhile startsHash
      = [pystr "# PAM config"] from by decide]
  rfl

/-- C2 witness: a concrete authfile path and a concrete starting text (one
stale stanza plus one unrelated line). -/
theorem stanza_mutator_idempotent_witness :
    breakFree (pystr "/home/user/.config/Yubico/u2f_keys") = true
      ∧ removedCount (updatedText (pystr "/home/user/.config/Yubico/u2f_keys")
          (pystr "auth required pam_u2f.so cue\nsession required pam_unix.so\n")) = 1
      ∧ updatedText (pystr "/home/user/.config/Yubico/u2f_keys")
          (updatedText (pystr "/home/user/.config/Yubico/u2f_keys")
            (pystr "auth required pam_u2f.so cue\nsession required pam_unix.so\n"))
        = updatedText (pystr "/home/user/.config/Yubico/u2f_keys")
            (pystr "auth required pam_u2f.so cue\nsession required pam_unix.so\n") :=
  ⟨by decide,
   (stanza_mutator_idempotent (pystr "/home/user/.config/Yubico/u2f_keys")
     (pystr "auth required pam_u2f.so cue\nsession required pam_unix.so\n") (by decide)).1,
   (stanza_mutator_idempotent (pystr "/home/user/.config/Yubico/u2f_keys")
     (pystr "auth required pam_u2f.so cue\nsession required pam_unix.so\n") (by decide)).2.1⟩

theorem eraseIdx_append_cons (A : List α) (x : α) (B : List α) :
    (A ++ x :: B).eraseIdx A.length = A ++ B := by
  induction A with
  | nil => rfl
  | cons a t ih =>
    show a :: (t ++ x :: B).eraseIdx t.length = a :: (t ++ B)
    rw [ih]

/-- C3: the stanza is inserted exactly after the contiguous leading block of
comment lines: in the output, the leading `#`-block has length
`pamInsertIdx content` and the stanza sits at that index; erasing it
recovers the kept lines, which are an order-preserving selection of the
input lines.  Concretely: a 3-comment header puts the stanza at index 3, no
header puts it at index 0, and a comment after the first non-comment line is
not skipped (it stays behind the stanza). -/
theorem stanza_insert_position (p content : PyStr) (hp : breakFree p = true) :
    ((splitlines (updatedText p content)).takeWhile startsHash).length = pamInsertIdx content
      ∧ (splitlines (updatedText p content))[pamInsertIdx content]? = some (pamLine p)
      ∧ (newLines p content).eraseIdx (pamInsertIdx content) = keptLines content
      ∧ (keptLines content).Sublist (splitlines content)
      ∧ (splitlines (updatedText p (pystr "#a\n#b\n#c\nauth required pam_permit.so\n")))[3]?
          = some (pamLine p)
      ∧ (splitlines (updatedText p (pystr "auth required pam_permit.so\n")))[0]?
          = some (pamLine p)
      ∧ (splitlines (updatedText p (pystr "#h\nacct x\n#late\n")))[1]? = some (pamLine p)
      ∧ (splitlines (updatedText p (pystr "#h\nacct x\n#late\n")))[3]? = some (pystr "#late") := by
  refine ⟨?_, ?_, ?_, ?_, ?_, ?_, ?_, ?_⟩
  · rw [splitlines_updatedText content hp,
      takeWhile_append_eq (fun a ha => List.mem_takeWhile_imp ha)
        (fun h2 t2 he => by injection he with he1 _; rw [← he1]; exact startsHash_pamLine p)]
    rfl
  · rw [splitlines_updatedText content hp]
    have hlen : pamInsertIdx content
        = ((keptLines content).takeWhile startsHash).length := rfl
    rw [hlen, List.getElem?_append_right (Nat.le_refl _), Nat.sub_self]
    simp
  · rw [newLines_eq]
    have hlen : pamInsertIdx content
        = ((keptLines content).takeWhile startsHash).length := rfl
    rw [hlen, eraseIdx_append_cons, List.takeWhile_append_dropWhile]
  · exact List.filter_sublist _
  · rw [splitlines_updatedText _ hp,
      show (keptLines (pystr "#a\n#b\n#c\nauth required pam_permit.so\n")).takeWhile startsHash
        = [pystr "#a", pystr "#b", pystr "#c"] from by decide]
    rfl
  · rw [splitlines_updatedText _ hp,
      show (keptLines (pystr "auth required pam_permit.so\n")).takeWhile startsHash
        = [] from by decide]
    rfl
  · rw [splitlines_updatedText _ hp,
      show (keptLines (pystr "#h\nacct x\n#late\n")).takeWhile startsHash
        = [pystr "#h"] from by decide]
    rfl
  · rw [splitlines_updatedText _ hp,
      show (keptLines (pystr "#h\nacct x\n#late\n")).takeWhile startsHash
        = [pystr "#h"] from by decide,
      show rtrimLines ((keptLines (pystr "#h\nacct x\n#late\n")).dropWhile startsHash)
        = [pystr "acct x", pystr "#late"] from by decide]
    simp

/-- C3 witness at a concrete path and a text whose header is two comments
followed by a matching stanza (which is removed before the index is found). -/
theorem stanza_insert_position_witness :
    breakFree (pystr "/k") = true
      ∧ ((splitlines (updatedText (pystr "/k")
            (pystr "#one\n#two\nauth required pam_u2f.so cue\nauth ok\n"))).takeWhile
              startsHash).length
          = pamInsertIdx (pystr "#one\n#two\nauth required pam_u2f.so cue\nauth ok\n")
      ∧ (splitlines (updatedText (pystr "/k")
            (pystr "#one\n#two\nauth required pam_u2f.so cue\nauth ok\n")))[pamInsertIdx
              (pystr "#one\n#two\nauth required pam_u2f.so cue\nauth ok\n")]?
          = some (pamLine (pystr "/k")) :=
  ⟨by decide,
   (stanza_insert_position (pystr "/k")
     (pystr "#one\n#two\nauth required pam_u2f.so cue\nauth ok\n") (by decide)).1,
   (stanza_insert_position (pystr "/k")
     (pystr "#one\n#two\nauth required pam_u2f.so cue\nauth ok\n") (by decide)).2.1⟩

/-- C10: a line is removed by the mutator's removal loop exactly when it
contains `"pam_u2f.so"` and its whitespace-stripped form starts with
`"auth"`: the kept lines contain a line as often as the input does when it
fails the test, and never when it passes it; a line without the module
reference is never removed; an indented matching line is removed. -/
theorem removal_predicate (content l : PyStr) :
    (keptLines content).countP (fun x => decide (x = l))
        = (if lineMatches l = true then 0
           else (splitlines content).countP (fun x => decide (x = l)))
      ∧ (hasSub (pystr "pam_u2f.so") l = false →
          (keptLines content).countP (fun x => decide (x = l))
            = (splitlines content).countP (fun x => decide (x = l)))
      ∧ lineMatches (pystr "   auth sufficient pam_u2f.so") = true
      ∧ keptLines (pystr "   auth sufficient pam_u2f.so\naccount required pam_unix.so\n")
          = [pystr "account required pam_unix.so"] := by
  have hmain : (keptLines content).countP (fun x => decide (x = l))
      = (if lineMatches l = true then 0
         else (splitlines content).countP (fun x => decide (x = l))) := by
    unfold keptLines
    rw [List.countP_filter]
    rcases hm : lineMatches l with _ | _
    · simp only [Bool.false_eq_true, if_false]
      apply List.countP_congr
      intro x _
      constructor
      · intro hx
        rw [Bool.and_eq_true] at hx
        exact hx.1
      · intro hx
        rw [Bool.and_eq_true]
        refine ⟨hx, ?_⟩
        rw [decide_eq_true_iff] at hx
        rw [hx, hm]
        rfl
    · simp only [if_true]
      rw [List.countP_eq_zero]
      intro a _
      rw [Bool.and_eq_true, not_and]
      intro ha
      rw [decide_eq_true_iff] at ha
      rw [ha, hm]
      simp
  refine ⟨hmain, ?_, by decide, by decide⟩
  intro hns
  rw [hmain, if_neg]
  intro hm
  unfold lineMatches at hm
  rw [hns] at hm
  cases hm

/-- C10 witness: an indented matching line versus a `sudo`-unrelated line. -/
theorem removal_predicate_witness :
    hasSub (pystr "pam_u2f.so") (pystr "session required pam_env.so") = false
      ∧ (keptLines (pystr "   auth sufficient pam_u2f.so\nsession required pam_env.so\n")).countP
          (fun x => decide (x = pystr "session required pam_env.so"))
        = (splitlines (pystr "   auth sufficient pam_u2f.so\nsession required pam_env.so\n")).countP
            (fun x => decide (x = pystr "session required pam_env.so")) :=
  ⟨by decide,
   (removal_predicate (pystr "   auth sufficient pam_u2f.so\nsession required pam_env.so\n")
     (pystr "session required pam_env.so")).2.1 (by decide)⟩

/-- C4: the backup guard never overwrites an existing backup (it reports it
as already present and returns it untouched, in dry-run or real mode); when
absent it copies the original's current bytes; and any number of repeated
real-mode invocations — however the original mutates in between — leaves
exactly the first-created backup content in place. -/
theorem backup_single_creation :
    (∀ (o b : PyStr) (d : Bool),
        backup_file o (some b) d = (some b, [pystr "OK: Backup already exists"]))
      ∧ (∀ o : PyStr, (backup_file o none false).1 = some o)
      ∧ (∀ (b : PyStr) (os : List PyStr), iterateBackup (some b) os = some b)
      ∧ (∀ (o : PyStr) (os : List PyStr), iterateBackup none (o :: os) = some o) := by
  have hsome : ∀ (b : PyStr) (os : List PyStr), iterateBackup (some b) os = some b := by
    intro b os
    induction os with
    | nil => rfl
    | cons o t ih =>
      show iterateBackup (backup_file o (some b) false).1 t = some b
      exact ih
  refine ⟨fun o b d => rfl, fun o => rfl, hsome, ?_⟩
  intro o os
  show iterateBackup (backup_file o none false).1 os = some o
  exact hsome o os

/-- C5, counterexample: a rule file equal to the desired content except for
a leading newline differs from it after trailing-whitespace trimming only,
yet the writer reports "already present" and does not overwrite — the code
compares with `strip()` (both ends), not trailing-only trimming, so the
claim's classification is false as stated. -/
theorem udev_rule_classification_counterexample :
    rstrip ('\n' :: udevRuleContent) ≠ rstrip udevRuleContent
      ∧ write_udev_rule (some ('\n' :: udevRuleContent)) false
          = (some ('\n' :: udevRuleContent),
             [pystr "[Setup Step] Ensuring udev rule exists for Yubico hidraw access...",
              pystr "OK: udev rule already present"])
      ∧ ('\n' :: udevRuleContent) ≠ udevRuleContent := by
  refine ⟨by decide, ?_, by decide⟩
  decide

/-- C5, amended: the writer classifies the target into three states using
equality after stripping leading *and* trailing whitespace from both sides:
present and strip-equal → no write, "already present"; present and
strip-different → replaced with the desired content; absent → created with
the desired content. -/
theorem udev_rule_classification_amended (e : PyStr) :
    (strip e = strip udevRuleContent →
        write_udev_rule (some e) false
          = (some e,
             [pystr "[Setup Step] Ensuring udev rule exists for Yubico hidraw access...",
              pystr "OK: udev rule already present"]))
      ∧ (strip e ≠ strip udevRuleContent →
          write_udev_rule (some e) false
            = (some udevRuleContent,
               [pystr "[Setup Step] Ensuring udev rule exists for Yubico hidraw access...",
                pystr "NOTICE: exists but differs; will replace with standard content.",
                pystr "Writing udev rule"]))
      ∧ write_udev_rule none false
          = (some udevRuleContent,
             [pystr "[Setup Step] Ensuring udev rule exists for Yubico hidraw access...",
              pystr "Writing udev rule"]) := by
  refine ⟨?_, ?_, rfl⟩
  · intro h
    simp [write_udev_rule, h]
  · intro h
    simp [write_udev_rule, h]

/-- C5 witness: an exact copy of the rule is left alone; an unrelated old
rule is replaced. -/
theorem udev_rule_classification_witness :
    (write_udev_rule (some udevRuleContent) false).1 = some udevRuleContent
      ∧ (write_udev_rule (some (pystr "old rule\n")) false).1 = some udevRuleContent :=
  ⟨by rw [(udev_rule_classification_amended udevRuleContent).1 rfl],
   by rw [((udev_rule_classification_amended (pystr "old rule\n")).2).1 (by decide)]⟩

/-- C6: every mutating component, invoked under dry-run, leaves its modelled
target state byte-for-byte unchanged and produces non-empty preview output:
the udev rule writer, the backup guard, the enrollment step, the PAM stanza
mutator (whether or not the PAM file exists), and package installation
(which invokes no external commands under dry-run). -/
theorem dry_run_frame :
    (∀ ex : Option PyStr,
        (write_udev_rule ex true).1 = ex ∧ (write_udev_rule ex true).2 ≠ [])
      ∧ (∀ (o : PyStr) (b : Option PyStr),
          (backup_file o b true).1 = b ∧ (backup_file o b true).2 ≠ [])
      ∧ (∀ (st : EnrollState) (re : Bool) (cmd : Except Unit PyStr),
          (enroll_u2f st re true cmd).1 = st ∧ (enroll_u2f st re true cmd).2.2 ≠ [])
      ∧ (∀ (a c : PyStr) (b : Option PyStr),
          (ensure_pam_sudo_line a ⟨some c, b⟩ true).1 = .ok ⟨some c, b⟩
            ∧ (ensure_pam_sudo_line a ⟨some c, b⟩ true).2 ≠ [])
      ∧ (∀ (a : PyStr) (b : Option PyStr),
          (ensure_pam_sudo_line a ⟨none, b⟩ true).1 = .error 3
            ∧ (ensure_pam_sudo_line a ⟨none, b⟩ true).2 ≠ [])
      ∧ (∀ pkgs : List PyStr,
          (apt_install pkgs true).1 = [] ∧ (apt_install pkgs true).2 ≠ []) := by
  refine ⟨?_, ?_, ?_, ?_, ?_, ?_⟩
  · intro ex
    rcases ex with _ | e
    · exact ⟨rfl, by simp [write_udev_rule]⟩
    · by_cases h : strip e = strip udevRuleContent
      · exact ⟨by simp [write_udev_rule, h], by simp [write_udev_rule, h]⟩
      · exact ⟨by simp [write_udev_rule, h], by simp [write_udev_rule, h]⟩
  · intro o b
    rcases b with _ | b
    · exact ⟨rfl, by simp [backup_file]⟩
    · exact ⟨rfl, by simp [backup_file]⟩
  · intro st re cmd
    by_cases h : (st.u2fKeys.isSome && !re) = true
    · exact ⟨by simp [enroll_u2f, h], by simp [enroll_u2f, h]⟩
    · exact ⟨by simp [enroll_u2f, h], by simp [enroll_u2f, h]⟩
  · intro a c b
    rcases b with _ | b
    · exact ⟨rfl, by simp [ensure_pam_sudo_line, backup_file]⟩
    · exact ⟨rfl, by simp [ensure_pam_sudo_line, backup_file]⟩
  · intro a b
    exact ⟨rfl, by simp [ensure_pam_sudo_line]⟩
  · intro pkgs
    exact ⟨rfl, by simp [apt_install]⟩

/-- C9: when the external `pamu2fcfg` invocation fails during an actual
enrollment (not skipped, not dry-run), the partial temporary file is removed
before the error is re-raised: afterwards no temp file exists, the final
enrollment file is exactly what it was before (not created), and the
outcome is the re-raised error. -/
theorem enroll_cleanup :
    (∀ (tmp : Option PyStr) (dirs re : Bool),
        enroll_u2f ⟨none, tmp, dirs⟩ re false (.error ())
          = (⟨none, none, true⟩, .error (),
             [pystr "Will write mapping file:", pystr "Running: sudo -u ... pamu2fcfg",
              pystr "ERROR: pamu2fcfg failed."]))
      ∧ (∀ (k : PyStr) (tmp : Option PyStr) (dirs : Bool),
          enroll_u2f ⟨some k, tmp, dirs⟩ true false (.error ())
            = (⟨some k, none, true⟩, .error (),
               [pystr "Will write mapping file:", pystr "Running: sudo -u ... pamu2fcfg",
                pystr "ERROR: pamu2fcfg failed."])) := by
  constructor
  · intro tmp dirs re
    rfl
  · intro k tmp dirs
    rfl

/-- C7: running elevated (euid 0) with no explicit identity and no
identity-hint environment variables, resolution succeeds exactly when the
eligible-account scan finds a single candidate — selecting it and emitting
the auto-selection notice; with zero or several candidates the resolver
returns the ambiguous `(None, None)` result and `main` exits with an error
demanding an explicit identity. -/
theorem identity_fallback (uid : Nat) (db : List Pwd) (f : PyStr → Bool) :
    (∀ pw : Pwd, discover_home_users db f = [pw] →
        resolve_target_user none none none none 0 uid db f
          = (.ok (some (pw.name, pw.dir)),
             [pystr "NOTICE: Auto-selected target user " ++ pw.name]))
      ∧ ((discover_home_users db f).length ≠ 1 →
          main_resolve none none none none 0 uid db f
            = (.error 1,
               [pystr "ERROR: Running as root, but could not determine a non-root target user."])) := by
  constructor
  · intro pw hd
    unfold resolve_target_user
    simp [pyTruthy, tryCandidates, hd]
  · intro hlen
    unfold main_resolve resolve_target_user
    simp only [pyTruthy, tryCandidates]
    rcases hd : discover_home_users db f with _ | ⟨x, t⟩
    · rfl
    · cases t with
      | nil =>
        rw [hd] at hlen
        exact absurd rfl hlen
      | cons y t2 => rfl

/-- C7 witness: one eligible `/home` account resolves; two eligible accounts
make `main` exit with an error. -/
theorem identity_fallback_witness :
    discover_home_users [⟨pystr "alice", 1000, pystr "/home/alice"⟩]
        (fun _ => true) = [⟨pystr "alice", 1000, pystr "/home/alice"⟩]
      ∧ resolve_target_user none none none none 0 0
          [⟨pystr "alice", 1000, pystr "/home/alice"⟩] (fun _ => true)
          = (.ok (some (pystr "alice", pystr "/home/alice")),
             [pystr "NOTICE: Auto-selected target user " ++ pystr "alice"])
      ∧ (discover_home_users
          [⟨pystr "alice", 1000, pystr "/home/alice"⟩, ⟨pystr "bob", 1001, pystr "/home/bob"⟩]
          (fun _ => true)).length ≠ 1
      ∧ main_resolve none none none none 0 0
          [⟨pystr "alice", 1000, pystr "/home/alice"⟩, ⟨pystr "bob", 1001, pystr "/home/bob"⟩]
          (fun _ => true)
          = (.error 1,
             [pystr "ERROR: Running as root, but could not determine a non-root target user."]) :=
  ⟨by decide,
   (identity_fallback 0 [⟨pystr "alice", 1000, pystr "/home/alice"⟩] (fun _ => true)).1
     ⟨pystr "alice", 1000, pystr "/home/alice"⟩ (by decide),
   by decide,
   (identity_fallback 0
     [⟨pystr "alice", 1000, pystr "/home/alice"⟩, ⟨pystr "bob", 1001, pystr "/home/bob"⟩]
     (fun _ => true)).2 (by decide)⟩

/-- C8, counterexample: `installer.py`'s `get_target_user` does *not* skip a
`SUDO_USER` naming the superuser — with `SUDO_USER=root` and no explicit
identity it resolves to the `root` account itself, so the claim, read over
both resolvers, is false. -/
theorem sudo_user_root_counterexample :
    installer_get_target_user none (some (pystr "root")) 1000
        [⟨pystr "root", 0, pystr "/root"⟩, ⟨pystr "alice", 1000, pystr "/home/alice"⟩]
      = .ok (pystr "root", pystr "/root") := by
  rfl

theorem tryCandidates_cons_root (rest : List (Option PyStr)) (db : List Pwd) :
    tryCandidates (some (pystr "root") :: rest) db = tryCandidates rest db := by
  simp [tryCandidates, pyTruthy,
    show ((pystr "root").isEmpty : Bool) = false from by decide]

/-- C8, amended: only `ansible_setup.py`'s resolver skips a superuser-valued
elevation signal — `SUDO_USER=root` there behaves exactly as if `SUDO_USER`
were unset, falling through to the next candidates; `installer.py`'s
`get_target_user`, by contrast, uses a truthy `SUDO_USER` unconditionally,
selecting the `root` account when `SUDO_USER=root`. -/
theorem sudo_user_root_amended :
    (∀ (user_env logname : Option PyStr) (euid uid : Nat) (db : List Pwd)
        (f : PyStr → Bool),
        resolve_target_user none (some (pystr "root")) user_env logname euid uid db f
          = resolve_target_user none none user_env logname euid uid db f)
      ∧ (∀ (uid : Nat) (db : List Pwd),
          installer_get_target_user none (some (pystr "root")) uid db
            = (match getpwnam db (pystr "root") with
               | some pw => .ok (pw.name, pw.dir)
               | none => .error 1)) := by
  constructor
  · intro user_env logname euid uid db f
    simp only [resolve_target_user]
    rw [tryCandidates_cons_root]
    rfl
  · intro uid db
    simp only [installer_get_target_user]
    rfl

